import Mathlib

/-!
# Verification of `andy` (mcginty/andy, `andy.go`)

Shallow embedding of the density-resolution, proportional-resize and
unit-conversion logic of `andy.go`.

Modelling conventions:

* Go's `dpi` type is `float64`, but every density constant is a small
  integer (`LDPI=3, MDPI=4, HDPI=6, XHDPI=8, XXHDPI=12, XXXHDPI=16`) and
  the comparisons/equalities performed on densities in the program are
  exact on such values, so densities are embedded as `Nat`.
* Filesystem paths are embedded as their lists of `/`-separated
  components (`List String`), mirroring
  `strings.Split(filepath.ToSlash(path), "/")` which is the very first
  thing each path-inspecting function of `andy.go` does.  `filepath.Join`
  of a folder, a bucket folder name and a filename corresponds to list
  append.  Inputs are taken to be the already-absolute, cleaned paths
  (`filepath.Abs` / `filepath.Clean` are identity on those).
* The filesystem itself is an oracle: `ex : List String → Bool` answers
  `fileExists` (stat + regular check) and `dirEx : List String → Bool`
  answers `dirExists`.  For the `dpi` pipeline the file contents are a
  partial map `List String → Option β`.
* Go map lookups (`folderToDensity[f]`, `densityToFolder[d]`) return the
  zero value (`0`, `""`) on a missing key; the embedding does the same.
* Errors are `Except String` carrying the literal `errors.New` message;
  `log.Fatal` on such an error is the terminal non-zero exit.
-/

/-- Density constants of `andy.go` (`const` block): integer scale factors. -/
def LDPI : Nat := 3

def MDPI : Nat := 4

def HDPI : Nat := 6

def XHDPI : Nat := 8

def XXHDPI : Nat := 12

def XXXHDPI : Nat := 16

/-- `folderToDensity` map of `andy.go`; a Go map lookup on a missing key
returns the zero value `0`. -/
def folderToDensity (f : String) : Nat :=
  if f = "drawable-mdpi" then MDPI
  else if f = "drawable-hdpi" then HDPI
  else if f = "drawable-xhdpi" then XHDPI
  else if f = "drawable-xxhdpi" then XXHDPI
  else if f = "drawable-xxxhdpi" then XXXHDPI
  else 0

/-- `densityToFolder` map of `andy.go`; missing key yields `""`. -/
def densityToFolder (d : Nat) : String :=
  if d = MDPI then "drawable-mdpi"
  else if d = HDPI then "drawable-hdpi"
  else if d = XHDPI then "drawable-xhdpi"
  else if d = XXHDPI then "drawable-xxhdpi"
  else if d = XXXHDPI then "drawable-xxxhdpi"
  else ""

/-- `densityToCanonical` map of `andy.go`; missing key yields `""`. -/
def densityToCanonical (d : Nat) : String :=
  if d = MDPI then "mdpi"
  else if d = HDPI then "hdpi"
  else if d = XHDPI then "xhdpi"
  else if d = XXHDPI then "xxhdpi"
  else if d = XXXHDPI then "xxxhdpi"
  else ""

/-- `ascendingDensityList` of `andy.go`. -/
def ascendingDensityList : List Nat := [MDPI, HDPI, XHDPI, XXHDPI, XXXHDPI]

/-- `densityPriorityList` of `andy.go`: bucket folder names in descending
density order. -/
def densityPriorityList : List String :=
  ["drawable-xxxhdpi", "drawable-xxhdpi", "drawable-xhdpi", "drawable-hdpi",
   "drawable-mdpi"]

/-- The folder list actually iterated by `resizeToFolders` of `andy.go`: it
scans `densityPriorityList` for the first folder whose density equals the
source density, sets `startingDensity` to that index plus one (it stays `0`
when no folder matches, Go zero value), and then iterates over
`densityPriorityList[startingDensity:]` calling `resizeTo` on each folder in
order.  This definition returns that slice, i.e. the exact sequence of
bucket folders that receive output, in call order. -/
def resizeTargetFolders (density : Nat) : List String :=
  let startingDensity :=
    match densityPriorityList.findIdx? (fun f => folderToDensity f = density) with
    | some i => i + 1
    | none => 0
  densityPriorityList.drop startingDensity

/-- The width handed to `resize.Resize` by `resizeTo` of `andy.go`:
`uint(float64(width) * float64(targetDensity) / float64(density))`.
The Go conversion `uint(x)` truncates toward zero; for the integer
densities involved (divisors `4, 6, 8, 12, 16`) and any realistic width
the `float64` quotient truncates to exactly `⌊width·target/source⌋`
(division by `4`, `8`, `16` is exact in `float64`, and for divisors `6`
and `12` the quotient is at distance ≥ 1/3 from any other integer, far
beyond the rounding error), so the embedding is `Nat` floor division. -/
def resizeWidth (width targetDensity sourceDensity : Nat) : Nat :=
  width * targetDensity / sourceDensity

/-- The width the spec's sentence asks for: `round(w·T/S)`, rounding half
up.  This definition follows the spec's words, not the code, and exists
only to be compared against `resizeWidth`. -/
def roundWidthSpec (width targetDensity sourceDensity : Nat) : Nat :=
  (2 * (width * targetDensity) + sourceDensity) / (2 * sourceDensity)

/-- `DrawableInfo` of `andy.go`.  `resFolder` and `filename` are kept as
component lists (see the path convention above; the `Filename` string of
the Go struct may itself contain slashes in the bare-filename branch,
where it is the raw argument). -/
structure DrawableInfoM where
  resFolder : List String
  density : Nat
  filename : List String
deriving Repr, DecidableEq

/-- `guessResFolder` of `andy.go`: try the conventional locations
`"res"` then `"src/main/res"` in order, first existing directory wins. -/
def guessResFolderM (dirEx : List String → Bool) : Except String (List String) :=
  if dirEx ["res"] then .ok ["res"]
  else if dirEx ["src", "main", "res"] then .ok ["src", "main", "res"]
  else .error "no folder found"

/-- `extractResFolder` of `andy.go`: scan the path components left to
right and return the prefix up to and including the first component equal
to `"res"`. -/
def extractResFolderM (comps : List String) : Except String (List String) :=
  match comps.findIdx? (fun c => c = "res") with
  | some i => .ok (comps.take (i + 1))
  | none => .error "no folder found"

/-- `extractDensity` of `andy.go`: scan the path components left to right
and return the density of the first component that is a known bucket
folder (`folderToDensity[folder] > 0`). -/
def extractDensityM (comps : List String) : Except String Nat :=
  match comps.find? (fun c => 0 < folderToDensity c) with
  | some c => .ok (folderToDensity c)
  | none => .error "no density found"

/-- `findHighestDensity` of `andy.go`: probe
`filepath.Join(resFolder, folder, filename)` for each `folder` of
`densityPriorityList` in order; the first existing file wins.  `fnComps`
is the component list of the `filename` argument (the raw command-line
argument in the calling context). -/
def findHighestDensityM (ex : List String → Bool) (resFolder : List String)
    (fnComps : List String) : Except String Nat :=
  match densityPriorityList.find? (fun folder => ex (resFolder ++ folder :: fnComps)) with
  | some folder => .ok (folderToDensity folder)
  | none => .error "no density found"

/-- `getDrawableInfo` of `andy.go` on the component list of the (absolute,
clean) argument path.  `ex` is the `fileExists` oracle and `dirEx` the
`dirExists` oracle.  In the existing-file branch the filename is the last
path component (`filepath.Split`); in the bare-filename branch it is the
whole argument. -/
def getDrawableInfoM (ex : List String → Bool) (dirEx : List String → Bool)
    (comps : List String) : Except String DrawableInfoM :=
  if ex comps then do
    let resFolder ← extractResFolderM comps
    let density ← extractDensityM comps
    .ok ⟨resFolder, density, [comps.getLast?.getD ""]⟩
  else do
    let resFolder ← guessResFolderM dirEx
    let density ← findHighestDensityM ex resFolder comps
    .ok ⟨resFolder, density, comps⟩

/-- Attempt to match the regular expression `(\d+)dp` at the start of the
character list and return the captured digit group: the greedy `\d+`
takes the maximal nonempty digit run, which must be followed by the
literal `dp` (no backtracking can help, a shorter digit run is followed
by a digit, not `d`). -/
def matchDpAt (cs : List Char) : Option (List Char) :=
  let ds := cs.takeWhile Char.isDigit
  if ds.isEmpty then none
  else
    match cs.drop ds.length with
    | 'd' :: 'p' :: _ => some ds
    | _ => none

/-- Leftmost match of `(\d+)dp` in the character list, as performed by
`regexp.FindStringSubmatch` in `convertCmd` of `andy.go`: try each start
position left to right and return the first captured digit group, `none`
when the whole string has no match (in which case the Go code indexes a
`nil` slice and panics). -/
def findDp : List Char → Option (List Char)
  | [] => none
  | c :: cs =>
    match matchDpAt (c :: cs) with
    | some ds => some ds
    | none => findDp cs

/-- Value of a digit list in the given base, `none` when a digit is not
below the base (a `strconv` syntax error). -/
def digitsToNat (base : Nat) : List Char → Option Nat
  | [] => some 0
  | d :: ds =>
    if d.toNat - '0'.toNat < base then
      (digitsToNat base ds).map (fun n => n * base + (d.toNat - '0'.toNat))
    else none

/-- Big-endian variant: value of the digit list read left to right. -/
def digitsVal (base : Nat) (ds : List Char) : Option Nat :=
  digitsToNat base ds.reverse

/-- `strconv.ParseInt(s, 0, 0)` of `andy.go`'s `convertCmd` applied to the
captured digit group (all characters are decimal digits and the group is
nonempty).  Base `0` means: a leading `0` with more digits selects octal
(a digit `8` or `9` is then a syntax error, whose result `0` the code
keeps because the error is discarded); otherwise decimal.  A value beyond
`int64` is a range error clamped to `2^63 - 1` (also discarded). -/
def parseIntGo (ds : List Char) : Int :=
  let n :=
    if 1 < ds.length ∧ ds.head? = some '0' then
      (digitsVal 8 ds).getD 0
    else
      (digitsVal 10 ds).getD 0
  if n ≤ 2 ^ 63 - 1 then (n : Int) else ((2 : Int) ^ 63 - 1)

/-- The per-bucket lines printed by `convertCmd` of `andy.go` for a parsed
dp value: for each density of `ascendingDensityList`, the canonical bucket
name and the pixel value `float64(dpValue) / float64(MDPI) *
float64(density)`.  The `float64` arithmetic is exact here (division by
`MDPI = 4` is exact, and the subsequent product is exact for any value
that fits the 53-bit mantissa), so it is embedded as rational
arithmetic. -/
def convertLines (dpValue : Int) : List (String × ℚ) :=
  ascendingDensityList.map
    (fun density => (densityToCanonical density, (dpValue : ℚ) / (MDPI : ℚ) * (density : ℚ)))

/-- `convertCmd` of `andy.go` on its single argument: find the leftmost
`(\d+)dp` match (panicking with a runtime index-out-of-range error when
there is none — modelled as the error result), parse the captured digits
with `strconv.ParseInt(., 0, 0)`, and print one line per bucket. -/
def convertCmdM (arg : String) : Except String (List (String × ℚ)) :=
  match findDp arg.toList with
  | some ds => .ok (convertLines (parseIntGo ds))
  | none => .error "panic: index out of range"

/-- The external image collaborators of `andy.go` (`png.Decode`,
`Bounds`-based width, `resize.Resize` with `Lanczos3`, `png.Encode`),
abstracted as pure functions: they are deterministic libraries with no
state of their own. -/
structure Codec (Img Bytes : Type) where
  decode : Bytes → Option Img
  width : Img → Nat
  resize : Nat → Img → Img
  encode : Img → Bytes

/-- One `os.Create` + `png.Encode`: overwrite the file at `p` with `b`. -/
def fsUpdate {β : Type} (fs : List String → Option β) (p : List String) (b : β) :
    List String → Option β :=
  fun q => if q = p then some b else fs q

/-- Sequential file writes, in list order (later writes win, as the later
`os.Create` would). -/
def writeAll {β : Type} : (List String → Option β) → List (List String × β) →
    (List String → Option β)
  | fs, [] => fs
  | fs, (p, b) :: rest => writeAll (fsUpdate fs p b) rest

/-- The file written by `resizeTo` of `andy.go` into bucket `folder`: the
encoding of the source image resampled to the proportional width. -/
def resizeOutput {Img Bytes : Type} (C : Codec Img Bytes) (sourceDensity : Nat)
    (img : Img) (folder : String) : Bytes :=
  C.encode (C.resize (resizeWidth (C.width img) (folderToDensity folder) sourceDensity) img)

/-- The `dpi` pipeline of `andy.go` for one argument (the body of the
`dpitizeCmd` run function followed by `resizeToFolders`/`resizeTo`):
resolve the drawable info, open and decode the source asset at
`resFolder/densityToFolder[density]/filename`, then write one resized
copy per target bucket folder.  `fs` maps a path to the bytes of the
regular file there (`none` = no file); `fileExists` is `(fs p).isSome`.
`os.Create` failures (`log.Fatal`) are not modelled: the claims about the
pipeline presuppose runs that complete.  The result is the updated
filesystem, or the message of the first fatal error. -/
def runDpi {Img Bytes : Type} (C : Codec Img Bytes) (dirEx : List String → Bool)
    (fs : List String → Option Bytes) (arg : List String) :
    Except String (List String → Option Bytes) := do
  let info ← getDrawableInfoM (fun p => (fs p).isSome) dirEx arg
  match fs (info.resFolder ++ densityToFolder info.density :: info.filename) with
  | none => .error "file open failed"
  | some bytes =>
    match C.decode bytes with
    | none => .error "decode failed"
    | some img =>
      .ok (writeAll fs ((resizeTargetFolders info.density).map
        (fun folder => (info.resFolder ++ folder :: info.filename,
          resizeOutput C info.density img folder))))

/-- Declarative counterpart of the regex `(\d+)dp`: the character list
contains, somewhere, a nonempty digit run immediately followed by the
literal `dp`. -/
def hasDpSubstring (cs : List Char) : Prop :=
  ∃ pre ds post, cs = pre ++ ds ++ 'd' :: 'p' :: post
    ∧ ds ≠ [] ∧ ∀ c ∈ ds, c.isDigit

/-! ## Theorems -/

/-- `takeWhile` stops exactly at the first element violating the
predicate. -/
theorem takeWhile_eq_of_append (p : Char → Bool) :
    ∀ (ds : List Char) (c : Char) (rest : List Char),
      (∀ x ∈ ds, p x = true) → p c = false →
      List.takeWhile p (ds ++ c :: rest) = ds := by
  intro ds
  induction ds with
  | nil => intro c rest _ hc; simp [List.takeWhile_cons, hc]
  | cons a t ih =>
    intro c rest hall hc
    have ha : p a = true := hall a (by simp)
    simp only [List.cons_append, List.takeWhile_cons, ha, if_true]
    rw [ih c rest (fun x hx => hall x (by simp [hx])) hc]

/-- Soundness of `matchDpAt`: a match at the head decomposes the list. -/
theorem matchDpAt_sound (cs ds : List Char) (h : matchDpAt cs = some ds) :
    ∃ post, cs = ds ++ 'd' :: 'p' :: post ∧ ds ≠ [] ∧ ∀ c ∈ ds, c.isDigit := by
  unfold matchDpAt at h
  by_cases he : (cs.takeWhile Char.isDigit).isEmpty
  · simp [he] at h
  · simp only [he, if_false, Bool.false_eq_true] at h
    split at h
    · rename_i post heq
      cases h
      obtain ⟨r, hr⟩ := List.takeWhile_prefix (l := cs) (p := Char.isDigit)
      have hrd := List.drop_left (List.takeWhile Char.isDigit cs) r
      rw [hr] at hrd
      have hr2 : r = 'd' :: 'p' :: post := hrd.symm.trans heq
      refine ⟨post, ?_, ?_, fun c hc => List.mem_takeWhile_imp hc⟩
      · exact hr.symm.trans (by rw [hr2])
      · intro hnil; rw [hnil] at he; simp at he
    · exact absurd h (by simp)

/-- Completeness of `matchDpAt`: a digit run followed by `dp` at the head
is matched (greediness cannot miss it: the run is followed by `d`, which
is not a digit). -/
theorem matchDpAt_of_head (ds post : List Char) (hne : ds ≠ [])
    (hd : ∀ c ∈ ds, c.isDigit) :
    matchDpAt (ds ++ 'd' :: 'p' :: post) = some ds := by
  unfold matchDpAt
  have ht : List.takeWhile Char.isDigit (ds ++ 'd' :: 'p' :: post) = ds :=
    takeWhile_eq_of_append _ ds 'd' ('p' :: post) hd (by decide)
  have hdrop : (ds ++ 'd' :: 'p' :: post).drop ds.length = 'd' :: 'p' :: post :=
    List.drop_left _ _
  simp only [ht, hdrop]
  rw [if_neg (by simpa using hne)]

/-- Soundness of the leftmost search: a found capture yields a
decomposition witnessing `hasDpSubstring`. -/
theorem findDp_sound : ∀ (cs ds : List Char), findDp cs = some ds → hasDpSubstring cs := by
  intro cs
  induction cs with
  | nil => intro ds h; exact absurd h (by simp [findDp])
  | cons c rest ih =>
    intro ds h
    unfold findDp at h
    cases hm : matchDpAt (c :: rest) with
    | some ds' =>
      rw [hm] at h
      cases h
      obtain ⟨post, heq, hne, hdig⟩ := matchDpAt_sound _ _ hm
      exact ⟨[], _, post, by simpa using heq, hne, hdig⟩
    | none =>
      rw [hm] at h
      obtain ⟨pre, ds', post, heq, hne, hdig⟩ := ih ds h
      exact ⟨c :: pre, ds', post, by simp [heq], hne, hdig⟩

/-- Completeness of the leftmost search: when a `(\d+)dp` substring
exists, the search finds some capture. -/
theorem findDp_complete : ∀ cs : List Char, hasDpSubstring cs → (findDp cs).isSome = true := by
  intro cs
  induction cs with
  | nil =>
    rintro ⟨pre, ds, post, heq, -, -⟩
    exact absurd heq.symm (by simp)
  | cons c rest ih =>
    rintro ⟨pre, ds, post, heq, hne, hdig⟩
    cases pre with
    | nil =>
      simp only [List.nil_append] at heq
      have hm : matchDpAt (c :: rest) = some ds := by
        rw [heq]; exact matchDpAt_of_head ds post hne hdig
      unfold findDp
      rw [hm]
      rfl
    | cons p0 pre' =>
      simp only [List.cons_append] at heq
      have hc : c = p0 := (List.cons.injEq .. ▸ heq).1
      have hrest : rest = pre' ++ ds ++ 'd' :: 'p' :: post := (List.cons.injEq .. ▸ heq).2
      unfold findDp
      cases hm : matchDpAt (c :: rest) with
      | some ds' => rfl
      | none => exact ih ⟨pre', ds, post, hrest, hne, hdig⟩

/-- **C1.** For every source density `D` among the five known buckets, the
resize fan-out (`resizeToFolders`) produces output for exactly the set of
density buckets strictly less than `D` — its target-folder densities are
the descending all-bucket density list filtered to those below `D` — each
bucket exactly once (`Nodup`), in strictly descending density order, and
nothing for buckets at or above `D`. -/
theorem resizeToFolders_fan_out (D : Nat)
    (hD : D ∈ [MDPI, HDPI, XHDPI, XXHDPI, XXXHDPI]) :
    (resizeTargetFolders D).map folderToDensity
        = (densityPriorityList.map folderToDensity).filter (fun t => t < D)
      ∧ List.Pairwise (fun a b => b < a) ((resizeTargetFolders D).map folderToDensity)
      ∧ (∀ f ∈ resizeTargetFolders D, folderToDensity f < D) := by
  fin_cases hD <;> decide

/-- Witness for C1 at source density `XXHDPI`. -/
theorem resizeToFolders_fan_out_witness :
    (resizeTargetFolders XXHDPI).map folderToDensity
        = (densityPriorityList.map folderToDensity).filter (fun t => t < XXHDPI)
      ∧ List.Pairwise (fun a b => b < a) ((resizeTargetFolders XXHDPI).map folderToDensity)
      ∧ (∀ f ∈ resizeTargetFolders XXHDPI, folderToDensity f < XXHDPI) :=
  resizeToFolders_fan_out XXHDPI (by decide)

/-- **C2, counterexample.** The claim says the width passed to the
resampler is `round(w·T/S)`.  At source width `5`, source `XXXHDPI (16)`,
target `XXHDPI (12)` the exact quotient is `3.75`: the code truncates it
to `3` while the claimed rounding yields `4`. -/
theorem resizeWidth_ne_round :
    resizeWidth 5 XXHDPI XXXHDPI ≠ roundWidthSpec 5 XXHDPI XXXHDPI
      ∧ resizeWidth 5 XXHDPI XXXHDPI = 3 ∧ roundWidthSpec 5 XXHDPI XXXHDPI = 4 := by
  decide

/-- **C2, amended.** The target width passed to the resampler is the
*truncation* (floor) of the exact quotient `w·T/S`, not its rounding.
The claim's example still holds because it is exact: width `480` at
`XXHDPI (12)` resized to `MDPI (4)` yields width `160`. -/
theorem resizeWidth_floor (w T S : Nat) :
    resizeWidth w T S = ⌊((w : ℚ) * T) / (S : ℚ)⌋₊
      ∧ resizeWidth 480 MDPI XXHDPI = 160 := by
  refine ⟨?_, by decide⟩
  have h : ((w : ℚ) * T) = ((w * T : ℕ) : ℚ) := by push_cast; ring
  rw [h, Nat.floor_div_nat, Nat.floor_natCast]; rfl

/-- Concrete evaluation of the per-bucket conversion at `30`. -/
theorem convertLines_thirty :
    convertLines 30
      = [("mdpi", 30), ("hdpi", 45), ("xhdpi", 60), ("xxhdpi", 90), ("xxxhdpi", 120)] := by
  simp only [convertLines, ascendingDensityList, densityToCanonical, MDPI, HDPI, XHDPI,
    XXHDPI, XXXHDPI, List.map]
  norm_num

/-- **C5.** For every parsed dp value `v`, the convert command computes
`v / MDPI · bucketDensity` for every bucket, reported in ascending density
order; in particular `30` yields `mdpi = 30`, `hdpi = 45`, `xhdpi = 60`,
`xxhdpi = 90`, `xxxhdpi = 120` pixels. -/
theorem convert_per_bucket (v : Int) :
    (convertLines v).map Prod.snd
        = ascendingDensityList.map (fun d => (v : ℚ) / (MDPI : ℚ) * (d : ℚ))
      ∧ List.Chain' (· < ·) ascendingDensityList
      ∧ convertLines 30
          = [("mdpi", 30), ("hdpi", 45), ("xhdpi", 60), ("xxhdpi", 90), ("xxxhdpi", 120)] :=
  ⟨by simp only [convertLines, List.map_map]; rfl,
   by simp [ascendingDensityList, List.chain'_cons, MDPI, HDPI, XHDPI, XXHDPI, XXXHDPI],
   convertLines_thirty⟩

/-- **C6, counterexample.** `"a30dp"` does not consist of a leading
integer followed by the unit suffix `dp`, yet the convert command does
not fail: the regex `(\d+)dp` is unanchored, so
`regexp.FindStringSubmatch` finds the inner `30dp`, and the command
prints the per-bucket pixel values for `30` and exits successfully. -/
theorem convertCmd_accepts_inner_match :
    convertCmdM "a30dp"
      = .ok [("mdpi", 30), ("hdpi", 45), ("xhdpi", 60), ("xxhdpi", 90), ("xxxhdpi", 120)] := by
  have h : convertCmdM "a30dp" = .ok (convertLines 30) := by rfl
  rw [h, convertLines_thirty]

/-- **C6, amended.** The convert command succeeds exactly on arguments
containing, anywhere, one or more digits immediately followed by `dp`
(the regex is unanchored, so e.g. `a30dp` is accepted); on every other
argument it aborts with a runtime index-out-of-range panic (non-zero
exit, no per-bucket output) — there is no `InvalidUnitFormat` error in
the program. -/
theorem convertCmd_match_characterization (s : String) :
    (convertCmdM s = .error "panic: index out of range" ↔ ¬ hasDpSubstring s.toList)
    ∧ ((∃ out, convertCmdM s = .ok out) ↔ hasDpSubstring s.toList) := by
  unfold convertCmdM
  cases hm : findDp s.toList with
  | some ds =>
    constructor
    · exact iff_of_false (by simp) (not_not_intro (findDp_sound _ _ hm))
    · exact iff_of_true ⟨_, rfl⟩ (findDp_sound _ _ hm)
  | none =>
    constructor
    · refine iff_of_true rfl ?_
      intro hdp
      have hc := findDp_complete _ hdp
      rw [hm] at hc
      simp at hc
    · refine iff_of_false ?_ ?_
      · rintro ⟨out, hout⟩
        exact absurd hout (by simp)
      · intro hdp
        have hc := findDp_complete _ hdp
        rw [hm] at hc
        simp at hc

/-- On a list whose images under `density` are strictly descending, the
first element satisfying `p` realizes the maximum `density` among all
elements satisfying `p`. -/
theorem find?_desc_max {α : Type} (density : α → Nat) (p : α → Bool) :
    ∀ (l : List α) (x : α), List.Pairwise (fun a b => density b < density a) l →
      l.find? p = some x →
      x ∈ l ∧ p x = true ∧ ∀ y ∈ l, p y = true → density y ≤ density x := by
  intro l
  induction l with
  | nil => intro x _ hx; exact absurd hx (by simp)
  | cons a t ih =>
    intro x hpw hx
    obtain ⟨ha, hpt⟩ := List.pairwise_cons.mp hpw
    by_cases hp : p a = true
    · rw [List.find?_cons_of_pos _ hp] at hx
      cases hx
      refine ⟨by simp, hp, ?_⟩
      intro y hy _
      rcases List.mem_cons.mp hy with rfl | hyt
      · exact le_rfl
      · exact le_of_lt (ha y hyt)
    · rw [List.find?_cons_of_neg _ hp] at hx
      obtain ⟨hxt, hpx, hmax⟩ := ih x hpt hx
      refine ⟨List.mem_cons_of_mem _ hxt, hpx, ?_⟩
      intro y hy hpy
      rcases List.mem_cons.mp hy with rfl | hyt
      · exact absurd hpy hp
      · exact hmax y hyt hpy

/-- **C3.** For a bare filename, `findHighestDensity` probes the bucket
folders under the guessed resource root in strictly descending density
order (`densityPriorityList`, whose densities are strictly descending)
and returns the density of the first bucket containing a file of that
name: hence a returned density belongs to an existing bucket and is the
*maximum* density over all bucket folders in which the file exists. -/
theorem findHighestDensity_picks_max (ex : List String → Bool) (rf fn : List String)
    (d : Nat) (h : findHighestDensityM ex rf fn = .ok d) :
    (∃ f ∈ densityPriorityList, ex (rf ++ f :: fn) = true ∧ folderToDensity f = d)
    ∧ (∀ g ∈ densityPriorityList, ex (rf ++ g :: fn) = true → folderToDensity g ≤ d)
    ∧ List.Pairwise (fun a b => b < a) (densityPriorityList.map folderToDensity) := by
  unfold findHighestDensityM at h
  cases hfind : densityPriorityList.find? (fun folder => ex (rf ++ folder :: fn)) with
  | none => rw [hfind] at h; exact absurd h (by simp)
  | some f =>
    rw [hfind] at h
    have hd : folderToDensity f = d := by
      injection h with h'
    obtain ⟨hmem, hex, hmax⟩ :=
      find?_desc_max folderToDensity (fun folder => ex (rf ++ folder :: fn))
        densityPriorityList f (by decide) hfind
    exact ⟨⟨f, hmem, hex, hd⟩, fun g hg hgex => hd ▸ hmax g hg hgex, by decide⟩

/-- Bind on a successful `Except` computation applies the continuation. -/
theorem except_bind_ok {ε α β : Type} (a : α) (f : α → Except ε β) :
    (Except.ok a >>= f) = f a := rfl

/-- Bind on a failed `Except` computation propagates the error. -/
theorem except_bind_error {ε α β : Type} (e : ε) (f : α → Except ε β) :
    ((Except.error e : Except ε α) >>= f) = Except.error e := rfl

/-- `findIdx?` returns the index of the first occurrence of a satisfying
element. -/
theorem findIdx?_first {α : Type} (p : α → Bool) :
    ∀ (pre : List α) (x : α) (suf : List α), (∀ y ∈ pre, p y = false) → p x = true →
      List.findIdx? p (pre ++ x :: suf) = some pre.length := by
  intro pre
  induction pre with
  | nil => intro x suf _ hx; simp [List.findIdx?_cons, hx]
  | cons a t ih =>
    intro x suf hall hx
    have ha : p a = false := hall a (by simp)
    simp only [List.cons_append, List.findIdx?_cons, ha, Bool.false_eq_true, if_false,
      List.findIdx?_succ]
    rw [ih x suf (fun y hy => hall y (by simp [hy])) hx]
    rfl

/-- `find?` returns the first occurrence of a satisfying element. -/
theorem find?_first {α : Type} (p : α → Bool) :
    ∀ (pre : List α) (x : α) (suf : List α), (∀ y ∈ pre, p y = false) → p x = true →
      List.find? p (pre ++ x :: suf) = some x := by
  intro pre
  induction pre with
  | nil => intro x suf _ hx; simp [List.find?_cons_of_pos _ hx]
  | cons a t ih =>
    intro x suf hall hx
    have ha : p a = false := hall a (by simp)
    simp only [List.cons_append]
    rw [List.find?_cons_of_neg _ (by simp [ha])]
    exact ih x suf (fun y hy => hall y (by simp [hy])) hx

/-- `extractResFolder` keeps the prefix up to and including the *first*
component named `res`. -/
theorem extractResFolder_first (pre suf : List String) (hpre : "res" ∉ pre) :
    extractResFolderM (pre ++ "res" :: suf) = .ok (pre ++ ["res"]) := by
  unfold extractResFolderM
  rw [findIdx?_first _ pre "res" suf
    (fun y hy => by simp only [decide_eq_false_iff_not]; exact fun h => hpre (h ▸ hy))
    (by simp)]
  have h2 : pre ++ "res" :: suf = (pre ++ ["res"]) ++ suf := by simp
  have hlen : pre.length + 1 = (pre ++ ["res"]).length := by simp
  rw [h2]
  show Except.ok (List.take (pre.length + 1) ((pre ++ ["res"]) ++ suf)) = Except.ok (pre ++ ["res"])
  rw [hlen, List.take_left]

/-- `extractResFolder` succeeds whenever some component is `res`. -/
theorem extractResFolder_ok_of_mem (comps : List String) (hres : "res" ∈ comps) :
    ∃ rf, extractResFolderM comps = .ok rf := by
  unfold extractResFolderM
  cases hidx : comps.findIdx? (fun c => c = "res") with
  | some i => exact ⟨_, rfl⟩
  | none =>
    have := List.findIdx?_eq_none_iff.mp hidx "res" hres
    simp at this

/-- `extractResFolder` fails with `no folder found` when no component is
`res`. -/
theorem extractResFolder_err_of_not_mem (comps : List String) (hres : "res" ∉ comps) :
    extractResFolderM comps = .error "no folder found" := by
  have hnone : comps.findIdx? (fun c => c = "res") = none :=
    List.findIdx?_eq_none_iff.mpr
      (fun x hx => by simp only [decide_eq_false_iff_not]; exact fun h => hres (h ▸ hx))
  unfold extractResFolderM
  rw [hnone]

/-- Witness for C3: with only `res/drawable-hdpi/icon.png` on disk, the
probe returns `HDPI` and it is maximal among existing buckets. -/
theorem findHighestDensity_picks_max_witness :
    (∃ f ∈ densityPriorityList,
        (fun p => decide (p = ["res", "drawable-hdpi", "icon.png"])) (["res"] ++ f :: ["icon.png"]) = true
        ∧ folderToDensity f = HDPI)
    ∧ (∀ g ∈ densityPriorityList,
        (fun p => decide (p = ["res", "drawable-hdpi", "icon.png"])) (["res"] ++ g :: ["icon.png"]) = true
        → folderToDensity g ≤ HDPI)
    ∧ List.Pairwise (fun a b => b < a) (densityPriorityList.map folderToDensity) :=
  findHighestDensity_picks_max (fun p => decide (p = ["res", "drawable-hdpi", "icon.png"]))
    ["res"] ["icon.png"] HDPI (by rfl)

/-- **C4, counterexample.** The path `/app/drawable-hdpi/ic.png` resolves
to an existing regular file and contains the recognized bucket segment
`drawable-hdpi` (encoding `HDPI`), yet resolution does not return that
density: `getDrawableInfo` fails first in `extractResFolder` with
`no folder found`, because no component is named `res`. -/
theorem getDrawableInfo_bucket_without_res :
    (fun p => decide (p = ["", "app", "drawable-hdpi", "ic.png"]))
        (["", "app", "drawable-hdpi", "ic.png"] : List String) = true
    ∧ "drawable-hdpi" ∈ (["", "app", "drawable-hdpi", "ic.png"] : List String)
    ∧ folderToDensity "drawable-hdpi" = HDPI
    ∧ getDrawableInfoM (fun p => decide (p = ["", "app", "drawable-hdpi", "ic.png"]))
        (fun _ => false) ["", "app", "drawable-hdpi", "ic.png"]
      = .error "no folder found" :=
  ⟨by decide, by decide, by decide, by rfl⟩

/-- **C4, amended.** For every path that resolves to an existing regular
file, contains a component literally named `res` (required for
resource-root extraction) and contains exactly one recognized
density-bucket folder segment, resolution succeeds and returns exactly
the density encoded by that folder name. -/
theorem getDrawableInfo_density_of_bucket (ex dirEx : List String → Bool)
    (comps : List String) (c : String)
    (hex : ex comps = true) (hres : "res" ∈ comps)
    (hc : c ∈ comps) (hcd : 0 < folderToDensity c)
    (huniq : ∀ b ∈ comps, 0 < folderToDensity b → b = c) :
    ∃ info, getDrawableInfoM ex dirEx comps = .ok info
      ∧ info.density = folderToDensity c := by
  obtain ⟨rf, hrf⟩ := extractResFolder_ok_of_mem comps hres
  have hd : extractDensityM comps = .ok (folderToDensity c) := by
    unfold extractDensityM
    cases hfd : comps.find? (fun b => 0 < folderToDensity b) with
    | none =>
      have := List.find?_eq_none.mp hfd c hc
      simp [hcd] at this
    | some b =>
      have hbc : b = c :=
        huniq b (List.mem_of_find?_eq_some hfd) (by simpa using List.find?_some hfd)
      rw [hbc]
  refine ⟨⟨rf, folderToDensity c, [comps.getLast?.getD ""]⟩, ?_, rfl⟩
  simp only [getDrawableInfoM, hex, if_true, hrf, hd]
  rfl

/-- Witness for C4's amended theorem at `/res/drawable-hdpi/ic.png`. -/
theorem getDrawableInfo_density_of_bucket_witness :
    ∃ info, getDrawableInfoM (fun p => decide (p = ["", "res", "drawable-hdpi", "ic.png"]))
        (fun _ => false) ["", "res", "drawable-hdpi", "ic.png"] = .ok info
      ∧ info.density = folderToDensity "drawable-hdpi" :=
  getDrawableInfo_density_of_bucket _ _ _ "drawable-hdpi"
    (by rfl) (by decide) (by decide) (by decide) (by decide)

/-- **C7, counterexample.** The path `/a/b/icon.png` resolves to an
existing regular file, no recognized bucket segment appears anywhere in
it, yet resolution fails with `no folder found` (the resource-root error,
`NoResourceRootFound`), not with `no density found` (`NoDensityFound`):
the root scan runs first and aborts resolution. -/
theorem getDrawableInfo_no_res_no_bucket :
    (∀ b ∈ (["", "a", "b", "icon.png"] : List String), folderToDensity b = 0)
    ∧ getDrawableInfoM (fun p => decide (p = ["", "a", "b", "icon.png"]))
        (fun _ => false) ["", "a", "b", "icon.png"] = .error "no folder found"
    ∧ ("no folder found" : String) ≠ "no density found" :=
  ⟨by decide, by rfl, by decide⟩

/-- **C7, amended.** Provided resource-root resolution succeeds — a `res`
path component in the existing-file branch, or a conventional resource
directory existing in the bare-filename branch — resolution fails with
`no density found` (`NoDensityFound`) when no recognized bucket segment
appears in the path (existing-file branch) respectively when no
same-named file exists in any bucket folder on disk (bare-filename
branch).  When root resolution fails instead, the earlier
`no folder found` error is reported. -/
theorem noDensityFound_when_root_resolves (ex dirEx : List String → Bool)
    (comps rf : List String) :
    (ex comps = true → "res" ∈ comps → (∀ b ∈ comps, folderToDensity b = 0) →
      getDrawableInfoM ex dirEx comps = .error "no density found")
    ∧ (ex comps = false → guessResFolderM dirEx = .ok rf →
      (∀ f ∈ densityPriorityList, ex (rf ++ f :: comps) = false) →
      getDrawableInfoM ex dirEx comps = .error "no density found") := by
  constructor
  · intro hex hres hnob
    obtain ⟨rfx, hrf⟩ := extractResFolder_ok_of_mem comps hres
    have hdens : extractDensityM comps = .error "no density found" := by
      unfold extractDensityM
      cases hfd : comps.find? (fun b => 0 < folderToDensity b) with
      | none => rfl
      | some b =>
        have h1 := List.find?_some hfd
        have h2 := List.mem_of_find?_eq_some hfd
        rw [hnob b h2] at h1
        exact absurd h1 (by simp)
    simp only [getDrawableInfoM, hex, if_true, hrf, hdens]
    rfl
  · intro hex hguess hnone
    have hfh : findHighestDensityM ex rf comps = .error "no density found" := by
      unfold findHighestDensityM
      cases hfd : densityPriorityList.find? (fun folder => ex (rf ++ folder :: comps)) with
      | none => rfl
      | some f =>
        have h1 := List.find?_some hfd
        have h2 := List.mem_of_find?_eq_some hfd
        rw [hnone f h2] at h1
        exact absurd h1 (by simp)
    simp only [getDrawableInfoM, hex, Bool.false_eq_true, if_false, hguess,
      except_bind_ok, hfh, except_bind_error]

/-- Witness for C7's amended theorem: empty disk except for the `res`
directory, bare filename `icon.png`. -/
theorem noDensityFound_when_root_resolves_witness :
    getDrawableInfoM (fun _ => false) (fun p => decide (p = ["res"])) ["icon.png"]
      = .error "no density found" :=
  (noDensityFound_when_root_resolves (fun _ => false) (fun p => decide (p = ["res"]))
    ["icon.png"] ["res"]).2 rfl (by rfl) (by decide)

/-- **C8, counterexample.** For the existing file
`/a/res/b/res/drawable-hdpi/x.png` the nearest ancestor directory named
`res` is `/a/res/b/res`, but resolution returns `/a/res`: the scan runs
left to right over the path components and stops at the *first* (i.e.
outermost) `res`, not the nearest one. -/
theorem getDrawableInfo_outermost_res :
    getDrawableInfoM
        (fun p => decide (p = ["", "a", "res", "b", "res", "drawable-hdpi", "x.png"]))
        (fun _ => false)
        ["", "a", "res", "b", "res", "drawable-hdpi", "x.png"]
      = .ok ⟨["", "a", "res"], HDPI, ["x.png"]⟩
    ∧ (["", "a", "res"] : List String) ≠ ["", "a", "res", "b", "res"] :=
  ⟨by rfl, by decide⟩

/-- **C8, amended.** For every path that resolves to an existing regular
file, the resource root returned is the prefix up to and including the
*first* (outermost) path component literally named `res`, scanning path
components in order; and resolution fails with `no folder found` when no
component is named `res`. -/
theorem resFolder_outermost_res (ex dirEx : List String → Bool) (pre suf : List String)
    (hpre : "res" ∉ pre) :
    extractResFolderM (pre ++ "res" :: suf) = .ok (pre ++ ["res"])
    ∧ (∀ info, ex (pre ++ "res" :: suf) = true →
        getDrawableInfoM ex dirEx (pre ++ "res" :: suf) = .ok info →
        info.resFolder = pre ++ ["res"])
    ∧ (∀ comps : List String, "res" ∉ comps →
        extractResFolderM comps = .error "no folder found"
        ∧ (ex comps = true → getDrawableInfoM ex dirEx comps = .error "no folder found")) := by
  have h1 := extractResFolder_first pre suf hpre
  refine ⟨h1, ?_, ?_⟩
  · intro info hex hok
    cases hdfd : extractDensityM (pre ++ "res" :: suf) with
    | error e =>
      have hall : getDrawableInfoM ex dirEx (pre ++ "res" :: suf) = .error e := by
        simp only [getDrawableInfoM, hex, if_true, h1, hdfd]
        rfl
      rw [hall] at hok
      exact absurd hok (by simp)
    | ok d =>
      have hall : getDrawableInfoM ex dirEx (pre ++ "res" :: suf)
          = .ok ⟨pre ++ ["res"], d, [(pre ++ "res" :: suf).getLast?.getD ""]⟩ := by
        simp only [getDrawableInfoM, hex, if_true, h1, hdfd]
        rfl
      rw [hall] at hok
      injection hok with h'
      rw [← h']
  · intro comps hres
    have herr := extractResFolder_err_of_not_mem comps hres
    refine ⟨herr, fun hex2 => ?_⟩
    simp only [getDrawableInfoM, hex2, if_true, herr]
    rfl

/-- Witness for C8's amended theorem at `/a/res/x.png`. -/
theorem resFolder_outermost_res_witness :
    extractResFolderM ((["", "a"] : List String) ++ "res" :: ["x.png"])
      = .ok (["", "a"] ++ ["res"]) :=
  (resFolder_outermost_res (fun _ => true) (fun _ => false) ["", "a"] ["x.png"]
    (by decide)).1

/-- **C10.** When the components of an existing-file path contain more
than one recognized density-bucket folder name, density resolution
returns the density of the first (leftmost) such component in path order,
ignoring the later ones: here `c` is the leftmost bucket component (no
bucket occurs in `pre`) and `d` a later one. -/
theorem extractDensity_leftmost (ex dirEx : List String → Bool)
    (pre mid suf : List String) (c d : String)
    (hpre : ∀ b ∈ pre, folderToDensity b = 0)
    (hc : 0 < folderToDensity c) (hd : 0 < folderToDensity d) :
    extractDensityM (pre ++ c :: (mid ++ d :: suf)) = .ok (folderToDensity c)
    ∧ (∀ info, ex (pre ++ c :: (mid ++ d :: suf)) = true →
        getDrawableInfoM ex dirEx (pre ++ c :: (mid ++ d :: suf)) = .ok info →
        info.density = folderToDensity c) := by
  have h1 : extractDensityM (pre ++ c :: (mid ++ d :: suf)) = .ok (folderToDensity c) := by
    unfold extractDensityM
    rw [find?_first _ pre c (mid ++ d :: suf)
      (fun y hy => by simp [hpre y hy]) (by simp [hc])]
  refine ⟨h1, ?_⟩
  intro info hex hok
  cases hrf : extractResFolderM (pre ++ c :: (mid ++ d :: suf)) with
  | error e =>
    have hall : getDrawableInfoM ex dirEx (pre ++ c :: (mid ++ d :: suf)) = .error e := by
      simp only [getDrawableInfoM, hex, if_true, hrf]
      rfl
    rw [hall] at hok
    exact absurd hok (by simp)
  | ok rf =>
    have hall : getDrawableInfoM ex dirEx (pre ++ c :: (mid ++ d :: suf))
        = .ok ⟨rf, folderToDensity c, [(pre ++ c :: (mid ++ d :: suf)).getLast?.getD ""]⟩ := by
      simp only [getDrawableInfoM, hex, if_true, hrf, h1]
      rfl
    rw [hall] at hok
    injection hok with h'
    rw [← h']

/-- Witness for C10 at `res/drawable-xhdpi/drawable-mdpi/x.png`: the
leftmost bucket `drawable-xhdpi` wins. -/
theorem extractDensity_leftmost_witness :
    extractDensityM ((["res"] : List String) ++ "drawable-xhdpi" :: ([] ++ "drawable-mdpi" :: ["x.png"]))
      = .ok (folderToDensity "drawable-xhdpi") :=
  (extractDensity_leftmost (fun _ => true) (fun _ => false) ["res"] [] ["x.png"]
    "drawable-xhdpi" "drawable-mdpi" (by decide) (by decide) (by decide)).1

/-- Writes never delete: a path mapped to a file stays mapped after any
write sequence. -/
theorem writeAll_isSome_mono {β : Type} :
    ∀ (ps : List (List String × β)) (fs : List String → Option β) (q : List String),
      (fs q).isSome = true → ((writeAll fs ps) q).isSome = true := by
  intro ps
  induction ps with
  | nil => intro fs q h; exact h
  | cons x rest ih =>
    intro fs q h
    refine ih _ q ?_
    unfold fsUpdate
    by_cases hq : q = x.1 <;> simp [hq, h]

/-- A path written by no element of the sequence keeps its old content. -/
theorem writeAll_not_mem {β : Type} :
    ∀ (ps : List (List String × β)) (fs : List String → Option β) (q : List String),
      (∀ x ∈ ps, x.1 ≠ q) → (writeAll fs ps) q = fs q := by
  intro ps
  induction ps with
  | nil => intro fs q _; rfl
  | cons x rest ih =>
    intro fs q hq
    have h1 : (writeAll (fsUpdate fs x.1 x.2) rest) q = (fsUpdate fs x.1 x.2) q :=
      ih _ q (fun y hy => hq y (by simp [hy]))
    have h2 : (fsUpdate fs x.1 x.2) q = fs q := by
      unfold fsUpdate
      rw [if_neg (fun h => hq x (by simp) h.symm)]
    show (writeAll (fsUpdate fs x.1 x.2) rest) q = fs q
    rw [h1, h2]

/-- Overwriting a file with its current content changes nothing. -/
theorem fsUpdate_self {β : Type} (fs : List String → Option β) (p : List String) (b : β)
    (h : fs p = some b) : fsUpdate fs p b = fs := by
  funext q
  unfold fsUpdate
  by_cases hq : q = p
  · rw [if_pos hq, hq, h]
  · rw [if_neg hq]

/-- Re-running a write sequence with pairwise distinct target paths is a
no-op: the contents written are the same both times. -/
theorem writeAll_idem {β : Type} :
    ∀ (ps : List (List String × β)) (fs : List String → Option β),
      (ps.map Prod.fst).Nodup → writeAll (writeAll fs ps) ps = writeAll fs ps := by
  intro ps
  induction ps with
  | nil => intro fs _; rfl
  | cons x rest ih =>
    intro fs hnd
    have hnd' : (x.1 :: rest.map Prod.fst).Nodup := by
      rw [List.map_cons] at hnd; exact hnd
    obtain ⟨hx, hrest⟩ := List.nodup_cons.mp hnd'
    show writeAll (fsUpdate (writeAll (fsUpdate fs x.1 x.2) rest) x.1 x.2) rest
        = writeAll (fsUpdate fs x.1 x.2) rest
    have hval : (writeAll (fsUpdate fs x.1 x.2) rest) x.1 = some x.2 := by
      rw [writeAll_not_mem rest _ x.1
        (fun y hy h => hx (by rw [← h]; exact List.mem_map_of_mem Prod.fst hy))]
      unfold fsUpdate
      rw [if_pos rfl]
    rw [fsUpdate_self _ _ _ hval]
    exact ih _ hrest

/-- Appending the same resource-root prefix and filename suffix is
injective in the bucket-folder component. -/
theorem path_cons_inj (rf fn : List String) (a b : String)
    (h : rf ++ a :: fn = rf ++ b :: fn) : a = b := by
  have h1 : a :: fn = b :: fn := List.append_cancel_left h
  exact (List.cons.injEq .. ▸ h1).1

/-- Facts about the fan-out targets at every known density: all targets
lie strictly below the source density, the target folders are pairwise
distinct, and the source bucket folder is never a target. -/
theorem resizeTargets_facts :
    ∀ d ∈ [MDPI, HDPI, XHDPI, XXHDPI, XXXHDPI],
      (∀ f ∈ resizeTargetFolders d, folderToDensity f < d)
      ∧ (resizeTargetFolders d).Nodup
      ∧ densityToFolder d ∉ resizeTargetFolders d := by
  decide

/-- A positive bucket density is one of the five known densities. -/
theorem folderToDensity_pos_mem (s : String) (h : 0 < folderToDensity s) :
    folderToDensity s ∈ [MDPI, HDPI, XHDPI, XXHDPI, XXXHDPI] := by
  unfold folderToDensity at *
  split_ifs at * <;> simp_all [MDPI, HDPI, XHDPI, XXHDPI, XXXHDPI]

/-- `guessResFolder` only ever returns one of its two conventional
locations. -/
theorem guessResFolderM_cases (dirEx : List String → Bool) (rf : List String)
    (h : guessResFolderM dirEx = .ok rf) :
    rf = ["res"] ∨ rf = ["src", "main", "res"] := by
  unfold guessResFolderM at h
  split_ifs at h <;> simp_all

/-- In the existing-file branch, `getDrawableInfo` is the
root-then-density extraction chain, independent of the filesystem
oracles. -/
theorem getDrawableInfoM_existing_eq (ex dirEx : List String → Bool)
    (comps : List String) (hex : ex comps = true) :
    getDrawableInfoM ex dirEx comps
      = (extractResFolderM comps >>= fun rf => extractDensityM comps >>= fun d =>
          .ok ⟨rf, d, [comps.getLast?.getD ""]⟩) := by
  simp only [getDrawableInfoM, hex, if_true]

/-- In the bare-filename branch, `getDrawableInfo` is the
guess-then-probe chain. -/
theorem getDrawableInfoM_bare_eq (ex dirEx : List String → Bool)
    (comps : List String) (hex : ex comps = false) :
    getDrawableInfoM ex dirEx comps
      = (guessResFolderM dirEx >>= fun rf => findHighestDensityM ex rf comps >>= fun d =>
          .ok ⟨rf, d, comps⟩) := by
  simp only [getDrawableInfoM, hex, Bool.false_eq_true, if_false]

/-- Two filesystem oracles agreeing that the argument exists resolve it
identically: the existing-file branch reads only the path components. -/
theorem getDrawableInfoM_congr_existing (ex ex' dirEx : List String → Bool)
    (comps : List String) (hex : ex comps = true) (hex' : ex' comps = true) :
    getDrawableInfoM ex' dirEx comps = getDrawableInfoM ex dirEx comps := by
  rw [getDrawableInfoM_existing_eq ex dirEx comps hex,
    getDrawableInfoM_existing_eq ex' dirEx comps hex']

/-- A density extracted from a path is one of the five known bucket
densities. -/
theorem extractDensityM_ok_mem (comps : List String) (d : Nat)
    (h : extractDensityM comps = .ok d) :
    d ∈ [MDPI, HDPI, XHDPI, XXHDPI, XXXHDPI] := by
  unfold extractDensityM at h
  cases hfd : comps.find? (fun c => 0 < folderToDensity c) with
  | none => rw [hfd] at h; exact absurd h (by simp)
  | some c =>
    rw [hfd] at h
    injection h with h'
    have := List.find?_some hfd
    exact h' ▸ folderToDensity_pos_mem c (by simpa using this)

/-- A density found by bucket probing is one of the five known bucket
densities. -/
theorem findHighestDensityM_ok_mem (ex : List String → Bool) (rf fn : List String)
    (d : Nat) (h : findHighestDensityM ex rf fn = .ok d) :
    d ∈ [MDPI, HDPI, XHDPI, XXHDPI, XXXHDPI] := by
  unfold findHighestDensityM at h
  cases hfd : densityPriorityList.find? (fun folder => ex (rf ++ folder :: fn)) with
  | none => rw [hfd] at h; exact absurd h (by simp)
  | some f =>
    rw [hfd] at h
    injection h with h'
    have hmem := List.mem_of_find?_eq_some hfd
    rw [← h']
    fin_cases hmem <;> decide

/-- Every successfully resolved drawable has one of the five known bucket
densities. -/
theorem getDrawableInfoM_density_mem (ex dirEx : List String → Bool)
    (comps : List String) (info : DrawableInfoM)
    (h : getDrawableInfoM ex dirEx comps = .ok info) :
    info.density ∈ [MDPI, HDPI, XHDPI, XXHDPI, XXXHDPI] := by
  cases hex : ex comps with
  | true =>
    rw [getDrawableInfoM_existing_eq ex dirEx comps hex] at h
    cases hrf : extractResFolderM comps with
    | error e => rw [hrf, except_bind_error] at h; exact absurd h (by simp)
    | ok rf =>
      rw [hrf, except_bind_ok] at h
      cases hdn : extractDensityM comps with
      | error e => rw [hdn, except_bind_error] at h; exact absurd h (by simp)
      | ok d =>
        rw [hdn, except_bind_ok] at h
        injection h with h'
        rw [← h']
        exact extractDensityM_ok_mem comps d hdn
  | false =>
    rw [getDrawableInfoM_bare_eq ex dirEx comps hex] at h
    cases hg : guessResFolderM dirEx with
    | error e => rw [hg, except_bind_error] at h; exact absurd h (by simp)
    | ok rf =>
      rw [hg, except_bind_ok] at h
      cases hfh : findHighestDensityM ex rf comps with
      | error e => rw [hfh, except_bind_error] at h; exact absurd h (by simp)
      | ok d =>
        rw [hfh, except_bind_ok] at h
        injection h with h'
        rw [← h']
        exact findHighestDensityM_ok_mem ex rf comps d hfh

/-- **C9.** For every fixed source asset and (deterministic) decode /
resize / encode collaborators, running the `dpi` pipeline twice in
succession on the same argument produces byte-identical output files in
every target bucket: if the first run turns filesystem `fs` into `fs1`,
the second run succeeds and returns `fs1` unchanged — it re-resolves the
same drawable info (the source asset is never a resize target, and newly
written files only occupy buckets strictly below the source, after it in
probe order), reads the same source bytes, and overwrites each target
with the same content. -/
theorem runDpi_idempotent {Img Bytes : Type} (C : Codec Img Bytes)
    (dirEx : List String → Bool) (fs fs1 : List String → Option Bytes)
    (arg : List String) (h : runDpi C dirEx fs arg = .ok fs1) :
    runDpi C dirEx fs1 arg = .ok fs1 := by
  unfold runDpi at h ⊢
  cases hinfo : getDrawableInfoM (fun p => (fs p).isSome) dirEx arg with
  | error e => rw [hinfo, except_bind_error] at h; exact absurd h (by simp)
  | ok info =>
  simp only [hinfo, except_bind_ok] at h
  cases hasset : fs (info.resFolder ++ densityToFolder info.density :: info.filename) with
  | none => rw [hasset] at h; simp at h
  | some bytes =>
  simp only [hasset] at h
  cases hdec : C.decode bytes with
  | none => simp only [hdec] at h; simp at h
  | some img =>
  simp only [hdec] at h
  have hfs1 : fs1 = writeAll fs ((resizeTargetFolders info.density).map
      (fun folder => (info.resFolder ++ folder :: info.filename,
        resizeOutput C info.density img folder))) := by
    injection h with h''
    exact h''.symm
  have hdmem := getDrawableInfoM_density_mem _ dirEx arg info hinfo
  obtain ⟨hlt, hndT, hsrc⟩ := resizeTargets_facts info.density hdmem
  set outs := (resizeTargetFolders info.density).map
      (fun folder => (info.resFolder ++ folder :: info.filename,
        resizeOutput C info.density img folder)) with houts
  have hkeysne : ∀ x ∈ outs, x.1 ≠ info.resFolder ++ densityToFolder info.density :: info.filename := by
    intro x hx heq
    rw [houts] at hx
    obtain ⟨f, hf, rfl⟩ := List.mem_map.mp hx
    exact hsrc (path_cons_inj _ _ _ _ heq ▸ hf)
  have hasset1 : fs1 (info.resFolder ++ densityToFolder info.density :: info.filename) = some bytes := by
    rw [hfs1, writeAll_not_mem _ _ _ hkeysne, hasset]
  have hndkeys : (outs.map Prod.fst).Nodup := by
    rw [houts, List.map_map]
    exact List.Nodup.map (fun a b hab => path_cons_inj _ _ _ _ hab) hndT
  have hinfo1 : getDrawableInfoM (fun p => (fs1 p).isSome) dirEx arg = .ok info := by
    cases hex : (fs arg).isSome with
    | true =>
      have hex1 : (fs1 arg).isSome = true := by
        rw [hfs1]; exact writeAll_isSome_mono outs fs arg hex
      rw [getDrawableInfoM_congr_existing (fun p => (fs p).isSome) (fun p => (fs1 p).isSome)
        dirEx arg hex hex1]
      exact hinfo
    | false =>
      rw [getDrawableInfoM_bare_eq _ dirEx arg hex] at hinfo
      cases hg : guessResFolderM dirEx with
      | error e => rw [hg, except_bind_error] at hinfo; exact absurd hinfo (by simp)
      | ok rf =>
      rw [hg, except_bind_ok] at hinfo
      cases hfh : findHighestDensityM (fun p => (fs p).isSome) rf arg with
      | error e => rw [hfh, except_bind_error] at hinfo; exact absurd hinfo (by simp)
      | ok d =>
      rw [hfh, except_bind_ok] at hinfo
      injection hinfo with h3
      have hrfe : info.resFolder = rf := by rw [← h3]
      have hde : info.density = d := by rw [← h3]
      have hfne : info.filename = arg := by rw [← h3]
      have hrfl : rf.length = 1 ∨ rf.length = 3 := by
        rcases guessResFolderM_cases dirEx rf hg with h1 | h1 <;> simp [h1]
      have hargne : ∀ x ∈ outs, x.1 ≠ arg := by
        intro x hx heq
        rw [houts] at hx
        obtain ⟨f, hf, rfl⟩ := List.mem_map.mp hx
        have hlen := congrArg List.length heq
        rw [hrfe, hfne] at hlen
        simp [List.length_append] at hlen
        omega
      have hex1 : (fs1 arg).isSome = false := by
        rw [hfs1, writeAll_not_mem _ _ _ hargne]; exact hex
      rw [getDrawableInfoM_bare_eq _ dirEx arg hex1, hg, except_bind_ok]
      suffices hfh1 : findHighestDensityM (fun p => (fs1 p).isSome) rf arg = .ok d by
        rw [hfh1, except_bind_ok, h3]
      unfold findHighestDensityM at hfh ⊢
      cases hfd : densityPriorityList.find? (fun folder => (fs (rf ++ folder :: arg)).isSome) with
      | none => rw [hfd] at hfh; exact absurd hfh (by simp)
      | some f0 =>
      rw [hfd] at hfh
      injection hfh with hdd
      have hpmem := List.mem_of_find?_eq_some hfd
      have hpf : (fs (rf ++ f0 :: arg)).isSome = true := by simpa using List.find?_some hfd
      have hq0 : (fs1 (rf ++ f0 :: arg)).isSome = true := by
        rw [hfs1]; exact writeAll_isSome_mono outs fs _ hpf
      cases hfq : densityPriorityList.find? (fun folder => (fs1 (rf ++ folder :: arg)).isSome) with
      | none =>
        have hnone := List.find?_eq_none.mp hfq f0 hpmem
        simp [hq0] at hnone
      | some z =>
      obtain ⟨hzmem, hqz, hzmax⟩ := find?_desc_max folderToDensity
        (fun folder => (fs1 (rf ++ folder :: arg)).isSome) densityPriorityList z (by decide) hfq
      obtain ⟨-, -, hpmax⟩ := find?_desc_max folderToDensity
        (fun folder => (fs (rf ++ folder :: arg)).isSome) densityPriorityList f0 (by decide) hfd
      have hzle : folderToDensity z ≤ folderToDensity f0 := by
        by_cases hkey : ∀ x ∈ outs, x.1 ≠ rf ++ z :: arg
        · have hzq : (fs1 (rf ++ z :: arg)).isSome = (fs (rf ++ z :: arg)).isSome := by
            rw [hfs1, writeAll_not_mem _ _ _ hkey]
          have hz2 : (fs (rf ++ z :: arg)).isSome = true := by rw [← hzq]; exact hqz
          exact hpmax z hzmem hz2
        · push_neg at hkey
          obtain ⟨x, hx, hxeq⟩ := hkey
          rw [houts] at hx
          obtain ⟨f, hf, rfl⟩ := List.mem_map.mp hx
          rw [hrfe, hfne] at hxeq
          have hfz : f = z := path_cons_inj _ _ _ _ hxeq
          have hflt := hlt f hf
          rw [hde, hfz] at hflt
          rw [hdd]
          exact le_of_lt hflt
      have hzge : folderToDensity f0 ≤ folderToDensity z := hzmax f0 hpmem hq0
      have hzf : z = f0 := by
        have hnd2 : (densityPriorityList.map folderToDensity).Nodup := by decide
        exact List.inj_on_of_nodup_map hnd2 hzmem hpmem (le_antisymm hzle hzge)
      show Except.ok (folderToDensity z) = Except.ok d
      rw [hzf, hdd]
  simp only [hinfo1, except_bind_ok, hasset1, hdec]
  rw [← houts, hfs1, writeAll_idem outs fs hndkeys]

/-- Witness for C9: a one-byte-image world with the source asset in
`res/drawable-xxhdpi/a.png`, resolved as the bare filename `a.png`;
re-running the pipeline on the filesystem produced by the first run
returns it unchanged. -/
theorem runDpi_idempotent_witness :
    runDpi (Codec.mk (fun _ => some ()) (fun _ => 1) (fun _ _ => ()) (fun _ => ()) : Codec Unit Unit)
      (fun p => decide (p = ["res"]))
      (writeAll (fun p => if p = ["res", "drawable-xxhdpi", "a.png"] then some () else none)
        ((resizeTargetFolders XXHDPI).map (fun folder => (["res"] ++ folder :: ["a.png"], ()))))
      ["a.png"]
    = .ok (writeAll (fun p => if p = ["res", "drawable-xxhdpi", "a.png"] then some () else none)
        ((resizeTargetFolders XXHDPI).map (fun folder => (["res"] ++ folder :: ["a.png"], ())))) :=
  runDpi_idempotent _ _
    (fun p => if p = ["res", "drawable-xxhdpi", "a.png"] then some () else none) _ _ (by rfl)
